import Mathlib

/-!
# Verification of the video-transpose core (src/main.rs)

This file gives a shallow embedding of the pure core of the `video-transpose`
program and proves the testable properties of its design document.

The program decodes a video of `T` frames, each `X × Y` pixels in packed RGB24
(3 bytes per pixel), into in-memory byte buffers (`receive_and_process_frames`),
then for each output index `x ∈ [0, X)` builds a transposed frame of width
`new_width` (`T` rounded up to even) and height `Y` by copying, for every
`y ∈ [0, Y)` and `t ∈ [0, T)`, the 3 bytes at input offset `(y*X + x)*3` of
frame `t` into output offset `(y*new_width + t)*3`, duplicating column `T-1`
into the padding column `T` when `T` is odd (`transpose_and_save`,
main.rs lines 267-294).  Encoded packets receive overwritten timestamps:
`pts = dts = current_pts`, advanced by a constant
`pts_increment = (tb_den * fps_den) / fps_num` computed with `i64` division
(main.rs lines 261-262 and 356-381).

Bytes are modelled as `Nat` (their values are copied opaquely, so the 0-255
range plays no role); byte buffers as `List Nat`; `i64` arithmetic as `Int`
(the only operation, `(tb_den * fps_den) / fps_num` on values coming from
`i32` fields, cannot overflow `i64`, and Rust's truncating `/` is `Int.tdiv`).
Rust `for` loops become the structural recursion `loopUp`, which applies the
body to `0, 1, ..., n-1` in increasing order.  Rust indexing panics out of
bounds; the main embedding uses `List.getD`/`List.set` (total, with the panic
cases proved unreachable by the `Option`-threaded mirror
`transpose_and_build_checked`, which returns `none` exactly when some access
of the Rust code would panic).
-/

/-! ## List access lemmas -/

theorem getD_set_self (l : List Nat) (i v : Nat) (h : i < l.length) :
    (l.set i v).getD i 0 = v := by
  simp [List.getD_eq_getElem?_getD, List.getElem?_set_self, h]

theorem getD_set_ne (l : List Nat) (i j v : Nat) (h : i ≠ j) :
    (l.set i v).getD j 0 = l.getD j 0 := by
  simp [List.getD_eq_getElem?_getD, List.getElem?_set_ne h]

theorem get?_eq_some_getD {α : Type} (l : List α) (i : Nat) (d : α) (h : i < l.length) :
    l.get? i = some (l.getD i d) := by
  simp [List.getD_eq_getElem?_getD, List.getElem?_eq_getElem h, List.get?_eq_getElem?]

theorem getD_mem {α : Type} (l : List α) (i : Nat) (d : α) (h : i < l.length) :
    l.getD i d ∈ l :=
  List.get?_mem (get?_eq_some_getD l i d h)

/-! ## Loop combinators

`loopUp n f a` runs `f` on the indices `0, 1, ..., n-1` in increasing order,
starting from state `a`: the embedding of `for i in 0..n { ... }`.
`loopUpOpt` is the same loop over a fallible body. -/

def loopUp {α : Type} (n : Nat) (f : Nat → α → α) (a : α) : α :=
  match n with
  | 0 => a
  | m + 1 => f m (loopUp m f a)

def loopUpOpt {α : Type} (n : Nat) (f : Nat → α → Option α) (a : α) : Option α :=
  match n with
  | 0 => some a
  | m + 1 => (loopUpOpt m f a).bind (f m)

theorem loopUp_zero {α : Type} (f : Nat → α → α) (a : α) : loopUp 0 f a = a := rfl

theorem loopUp_succ {α : Type} (n : Nat) (f : Nat → α → α) (a : α) :
    loopUp (n + 1) f a = f n (loopUp n f a) := rfl

theorem loopUp_inv {α : Type} (P : α → Prop) (n : Nat) (f : Nat → α → α) (a : α)
    (hf : ∀ i a, P a → P (f i a)) (ha : P a) : P (loopUp n f a) := by
  induction n with
  | zero => exact ha
  | succ m ih => exact hf m _ ih

theorem loopUpOpt_eq_some {α : Type} (P : α → Prop) (n : Nat)
    (f : Nat → α → α) (g : Nat → α → Option α) (a : α)
    (hstep : ∀ i a, i < n → P a → g i a = some (f i a) ∧ P (f i a)) (ha : P a) :
    loopUpOpt n g a = some (loopUp n f a) ∧ P (loopUp n f a) := by
  induction n with
  | zero => exact ⟨rfl, ha⟩
  | succ m ih =>
    have ih' := ih (fun i a hi hPa => hstep i a (Nat.lt_succ_of_lt hi) hPa)
    have hs := hstep m (loopUp m f a) (Nat.lt_succ_self m) ih'.2
    refine ⟨?_, hs.2⟩
    show (loopUpOpt m g a).bind (g m) = _
    rw [ih'.1]
    simpa [loopUp_succ] using hs.1

/-! ## The transpose engine (main.rs `transpose_and_save`, lines 141-151 and 267-294) -/

/-- main.rs lines 146-150: H.264 requires even dimensions, pad if needed. -/
def padded_width (new_width_raw : Nat) : Nat :=
  if new_width_raw % 2 == 0 then new_width_raw else new_width_raw + 1

/-- Body of the inner `for t in 0..new_width_raw` loop (main.rs lines 273-283):
copy the RGB triple of input frame `t` at `src_offset = (y*orig_width + x)*3`
to `dst_offset = (y*new_width + t)*3` of the output buffer. -/
def copy_pixel (input_frames : List (List Nat)) (orig_width x new_width y t : Nat)
    (buf : List Nat) : List Nat :=
  let src_offset := (y * orig_width + x) * 3
  let dst_offset := (y * new_width + t) * 3
  let frame := input_frames.getD t []
  let buf1 := buf.set dst_offset (frame.getD src_offset 0)
  let buf2 := buf1.set (dst_offset + 1) (frame.getD (src_offset + 1) 0)
  buf2.set (dst_offset + 2) (frame.getD (src_offset + 2) 0)

/-- main.rs lines 285-293: if padded, duplicate the last column into the
padding column, one byte at a time (each read happens after the preceding
writes, exactly as in the source). -/
def pad_row (new_width new_width_raw y : Nat) (buf : List Nat) : List Nat :=
  let last_src_offset := (y * new_width + new_width_raw - 1) * 3
  let pad_dst_offset := (y * new_width + new_width_raw) * 3
  let buf1 := buf.set pad_dst_offset (buf.getD last_src_offset 0)
  let buf2 := buf1.set (pad_dst_offset + 1) (buf1.getD (last_src_offset + 1) 0)
  buf2.set (pad_dst_offset + 2) (buf2.getD (last_src_offset + 2) 0)

/-- Body of the `for y in 0..new_height` loop of main.rs lines 272-294:
the inner `t` loop followed by the conditional padding duplication. -/
def transpose_row (input_frames : List (List Nat)) (orig_width x new_width new_width_raw y : Nat)
    (padded : Bool) (buf : List Nat) : List Nat :=
  let buf := loopUp new_width_raw (fun t b => copy_pixel input_frames orig_width x new_width y t b) buf
  if padded then pad_row new_width new_width_raw y buf else buf

/-- main.rs lines 267-294: build the transposed frame for output index `x`
(the pure content of one iteration of `for x in 0..new_num_frames`):
a `new_width * new_height * 3` zero buffer filled row by row. -/
def transpose_and_build (input_frames : List (List Nat))
    (orig_width orig_height num_frames x : Nat) : List Nat :=
  let new_width_raw := num_frames
  let new_height := orig_height
  let new_width := padded_width new_width_raw
  let padded := new_width != new_width_raw
  loopUp new_height
    (fun y buf => transpose_row input_frames orig_width x new_width new_width_raw y padded buf)
    (List.replicate (new_width * new_height * 3) 0)

/-- The sequence of transposed frames produced by the whole
`for x in 0..new_num_frames` loop, where `new_num_frames = orig_width`
(main.rs line 143 and 267). -/
def transpose_output (input_frames : List (List Nat))
    (orig_width orig_height num_frames : Nat) : List (List Nat) :=
  (List.range orig_width).map
    (fun x => transpose_and_build input_frames orig_width orig_height num_frames x)

/-! ## Offset arithmetic -/

theorem off_lt_len (W Y y u c : Nat) (hy : y < Y) (hu : u < W) (hc : c < 3) :
    (y * W + u) * 3 + c < W * Y * 3 := by
  have h1 : (y + 1) * W ≤ Y * W := Nat.mul_le_mul_right W hy
  rw [Nat.succ_mul] at h1
  have h2 : W * Y * 3 = Y * W * 3 := by ring
  rw [h2]
  revert h1
  generalize y * W = A
  generalize Y * W = B
  intro h1
  omega

theorem off3_ne (b u v c c' : Nat) (huv : u ≠ v) (hc : c < 3) (hc' : c' < 3) :
    (b + u) * 3 + c ≠ (b + v) * 3 + c' := by omega

theorem off_in_row (W y u c : Nat) (hu : u < W) (hc : c < 3) :
    y * W * 3 ≤ (y * W + u) * 3 + c ∧ (y * W + u) * 3 + c < (y + 1) * W * 3 := by
  have h2 : (y + 1) * W * 3 = y * W * 3 + W * 3 := by ring
  rw [h2]
  revert hu hc
  generalize y * W = A
  intro hu hc
  omega

theorem row_lt_row (W y n : Nat) (h : y < n) : (y + 1) * W * 3 ≤ n * W * 3 :=
  Nat.mul_le_mul_right 3 (Nat.mul_le_mul_right W h)

/-! ## Length preservation -/

theorem copy_pixel_length (input_frames : List (List Nat)) (orig_width x new_width y t : Nat)
    (buf : List Nat) :
    (copy_pixel input_frames orig_width x new_width y t buf).length = buf.length := by
  simp [copy_pixel]

theorem pad_row_length (new_width new_width_raw y : Nat) (buf : List Nat) :
    (pad_row new_width new_width_raw y buf).length = buf.length := by
  simp [pad_row]

theorem transpose_row_length (input_frames : List (List Nat))
    (orig_width x new_width new_width_raw y : Nat) (padded : Bool) (buf : List Nat) :
    (transpose_row input_frames orig_width x new_width new_width_raw y padded buf).length
      = buf.length := by
  unfold transpose_row
  have h : (loopUp new_width_raw
      (fun t b => copy_pixel input_frames orig_width x new_width y t b) buf).length
      = buf.length := by
    have := loopUp_inv (fun b : List Nat => b.length = buf.length) new_width_raw
      (fun t b => copy_pixel input_frames orig_width x new_width y t b) buf
      (fun i a ha => by simp only [copy_pixel_length]; exact ha) rfl
    exact this
  cases padded with
  | false => simpa using h
  | true => simp only [if_pos]; rw [pad_row_length]; exact h

theorem transpose_and_build_length (input_frames : List (List Nat))
    (orig_width orig_height num_frames x : Nat) :
    (transpose_and_build input_frames orig_width orig_height num_frames x).length
      = padded_width num_frames * orig_height * 3 := by
  unfold transpose_and_build
  have := loopUp_inv
    (fun b : List Nat => b.length = padded_width num_frames * orig_height * 3)
    orig_height
    (fun y buf => transpose_row input_frames orig_width x (padded_width num_frames)
      num_frames y (padded_width num_frames != num_frames) buf)
    (List.replicate (padded_width num_frames * orig_height * 3) 0)
    (fun i a ha => by simp only [transpose_row_length]; exact ha)
    (by simp)
  exact this

/-! ## Pointwise characterization of the byte writes -/

theorem set3_getD_self (buf : List Nat) (d v0 v1 v2 c : Nat) (hc : c < 3)
    (hd : d + 2 < buf.length) :
    (((buf.set d v0).set (d + 1) v1).set (d + 2) v2).getD (d + c) 0
      = [v0, v1, v2].getD c 0 := by
  have hlen0 : (buf.set d v0).length = buf.length := by simp
  have hlen1 : ((buf.set d v0).set (d + 1) v1).length = buf.length := by simp
  interval_cases c
  · rw [show d + 0 = d from rfl]
    rw [getD_set_ne _ _ _ _ (by omega : d + 2 ≠ d)]
    rw [getD_set_ne _ _ _ _ (by omega : d + 1 ≠ d)]
    rw [getD_set_self buf d v0 (by omega)]
    rfl
  · rw [getD_set_ne _ _ _ _ (by omega : d + 2 ≠ d + 1)]
    rw [getD_set_self _ _ _ (by rw [hlen0]; omega)]
    rfl
  · rw [getD_set_self _ _ _ (by rw [hlen1]; omega)]
    rfl

theorem set3_getD_ne (buf : List Nat) (d v0 v1 v2 i : Nat)
    (h0 : i ≠ d) (h1 : i ≠ d + 1) (h2 : i ≠ d + 2) :
    (((buf.set d v0).set (d + 1) v1).set (d + 2) v2).getD i 0 = buf.getD i 0 := by
  rw [getD_set_ne _ _ _ _ (Ne.symm h2), getD_set_ne _ _ _ _ (Ne.symm h1),
    getD_set_ne _ _ _ _ (Ne.symm h0)]

theorem copy_pixel_getD_self (FS : List (List Nat)) (X x W y t c : Nat) (buf : List Nat)
    (hc : c < 3) (hd : (y * W + t) * 3 + 2 < buf.length) :
    (copy_pixel FS X x W y t buf).getD ((y * W + t) * 3 + c) 0
      = (FS.getD t []).getD ((y * X + x) * 3 + c) 0 := by
  simp only [copy_pixel]
  rw [set3_getD_self _ _ _ _ _ _ hc hd]
  interval_cases c <;> simp

theorem copy_pixel_getD_ne (FS : List (List Nat)) (X x W y t i : Nat) (buf : List Nat)
    (h : ∀ c, c < 3 → i ≠ (y * W + t) * 3 + c) :
    (copy_pixel FS X x W y t buf).getD i 0 = buf.getD i 0 := by
  simp only [copy_pixel]
  exact set3_getD_ne _ _ _ _ _ _
    (by simpa using h 0 (by omega)) (h 1 (by omega)) (h 2 (by omega))

theorem row_loop_length (FS : List (List Nat)) (X x W y n : Nat) (buf : List Nat) :
    (loopUp n (fun u b => copy_pixel FS X x W y u b) buf).length = buf.length :=
  loopUp_inv (fun b : List Nat => b.length = buf.length) n _ buf
    (fun i a ha => by simp only [copy_pixel_length]; exact ha) rfl

theorem row_loop_getD_lt (FS : List (List Nat)) (X x W Y y n t c : Nat) (buf : List Nat)
    (hy : y < Y) (hn : n ≤ W) (hbuf : buf.length = W * Y * 3) (ht : t < n) (hc : c < 3) :
    (loopUp n (fun u b => copy_pixel FS X x W y u b) buf).getD ((y * W + t) * 3 + c) 0
      = (FS.getD t []).getD ((y * X + x) * 3 + c) 0 := by
  induction n with
  | zero => omega
  | succ m ih =>
    simp only [loopUp_succ]
    by_cases hm : t = m
    · subst hm
      exact copy_pixel_getD_self FS X x W y t c _ hc
        (by rw [row_loop_length, hbuf]; exact off_lt_len W Y y t 2 hy (by omega) (by omega))
    · rw [copy_pixel_getD_ne FS X x W y m _ _
        (fun c' hc' => off3_ne (y * W) t m c c' hm hc hc')]
      exact ih (by omega) (by omega)

theorem row_loop_getD_ne (FS : List (List Nat)) (X x W y n i : Nat) (buf : List Nat)
    (h : ∀ u c, u < n → c < 3 → i ≠ (y * W + u) * 3 + c) :
    (loopUp n (fun u b => copy_pixel FS X x W y u b) buf).getD i 0 = buf.getD i 0 := by
  induction n with
  | zero => rfl
  | succ m ih =>
    simp only [loopUp_succ]
    rw [copy_pixel_getD_ne FS X x W y m i _ (fun c hc => h m c (Nat.lt_succ_self m) hc)]
    exact ih (fun u c hu hc => h u c (Nat.lt_succ_of_lt hu) hc)

theorem pad3_getD (buf : List Nat) (p s c : Nat) (hc : c < 3) (hp : p + 2 < buf.length)
    (hs : s + 3 = p) :
    (((buf.set p (buf.getD s 0)).set (p + 1)
        ((buf.set p (buf.getD s 0)).getD (s + 1) 0)).set (p + 2)
        (((buf.set p (buf.getD s 0)).set (p + 1)
          ((buf.set p (buf.getD s 0)).getD (s + 1) 0)).getD (s + 2) 0)).getD (p + c) 0
      = buf.getD (s + c) 0 := by
  have e1 : (buf.set p (buf.getD s 0)).getD (s + 1) 0 = buf.getD (s + 1) 0 :=
    getD_set_ne _ _ _ _ (by omega)
  rw [e1]
  have e2 : ((buf.set p (buf.getD s 0)).set (p + 1) (buf.getD (s + 1) 0)).getD (s + 2) 0
      = buf.getD (s + 2) 0 := by
    rw [getD_set_ne _ _ _ _ (by omega), getD_set_ne _ _ _ _ (by omega)]
  rw [e2]
  rw [set3_getD_self buf p (buf.getD s 0) (buf.getD (s + 1) 0) (buf.getD (s + 2) 0) c hc hp]
  interval_cases c <;> simp

theorem pad_row_getD_pad (W T y c : Nat) (buf : List Nat) (hT : 1 ≤ T) (hc : c < 3)
    (hp : (y * W + T) * 3 + 2 < buf.length) :
    (pad_row W T y buf).getD ((y * W + T) * 3 + c) 0
      = buf.getD ((y * W + T - 1) * 3 + c) 0 := by
  simp only [pad_row]
  exact pad3_getD buf ((y * W + T) * 3) ((y * W + T - 1) * 3) c hc hp (by omega)

theorem pad_row_getD_ne (W T y i : Nat) (buf : List Nat)
    (h : ∀ c, c < 3 → i ≠ (y * W + T) * 3 + c) :
    (pad_row W T y buf).getD i 0 = buf.getD i 0 := by
  simp only [pad_row]
  rw [getD_set_ne _ _ _ _ (Ne.symm (h 2 (by omega))),
    getD_set_ne _ _ _ _ (Ne.symm (h 1 (by omega))),
    getD_set_ne _ _ _ _ (Ne.symm (by simpa using h 0 (by omega)))]

theorem transpose_row_getD_main (FS : List (List Nat)) (X x W T Y y t c : Nat) (padded : Bool)
    (buf : List Nat) (hy : y < Y) (ht : t < T) (hTW : T ≤ W)
    (hpad : padded = true → W = T + 1) (hbuf : buf.length = W * Y * 3) (hc : c < 3) :
    (transpose_row FS X x W T y padded buf).getD ((y * W + t) * 3 + c) 0
      = (FS.getD t []).getD ((y * X + x) * 3 + c) 0 := by
  unfold transpose_row
  cases padded with
  | false =>
    simp only [Bool.false_eq_true, if_neg, ite_false]
    exact row_loop_getD_lt FS X x W Y y T t c buf hy hTW hbuf (by omega) hc
  | true =>
    simp only [ite_true]
    rw [pad_row_getD_ne W T y _ _
      (fun c' hc' => off3_ne (y * W) t T c c' (by omega) hc hc')]
    exact row_loop_getD_lt FS X x W Y y T t c buf hy hTW hbuf (by omega) hc

theorem transpose_row_getD_padcol (FS : List (List Nat)) (X x W T Y y c : Nat)
    (buf : List Nat) (hy : y < Y) (hT : 1 ≤ T) (hW : W = T + 1)
    (hbuf : buf.length = W * Y * 3) (hc : c < 3) :
    (transpose_row FS X x W T y true buf).getD ((y * W + T) * 3 + c) 0
      = (FS.getD (T - 1) []).getD ((y * X + x) * 3 + c) 0 := by
  unfold transpose_row
  simp only [ite_true]
  rw [pad_row_getD_pad W T y c _ hT hc
    (by rw [row_loop_length, hbuf]; exact off_lt_len W Y y T 2 hy (by omega) (by omega))]
  have he : (y * W + T - 1) * 3 + c = (y * W + (T - 1)) * 3 + c := by
    generalize y * W = b
    omega
  rw [he]
  exact row_loop_getD_lt FS X x W Y y T (T - 1) c buf hy (by omega) hbuf (by omega) hc

theorem transpose_row_getD_outside (FS : List (List Nat)) (X x W T y i : Nat) (padded : Bool)
    (buf : List Nat) (hTW : T ≤ W) (hpad : padded = true → W = T + 1)
    (h : i < y * W * 3 ∨ (y + 1) * W * 3 ≤ i) :
    (transpose_row FS X x W T y padded buf).getD i 0 = buf.getD i 0 := by
  have key : ∀ u c, u < W → c < 3 → i ≠ (y * W + u) * 3 + c := by
    intro u c hu hc
    have hin := off_in_row W y u c hu hc
    omega
  unfold transpose_row
  cases padded with
  | false =>
    simp only [Bool.false_eq_true, ite_false]
    exact row_loop_getD_ne FS X x W y T i buf (fun u c hu hc => key u c (by omega) hc)
  | true =>
    simp only [ite_true]
    rw [pad_row_getD_ne W T y i _ (fun c hc => key T c (by have := hpad rfl; omega) hc)]
    exact row_loop_getD_ne FS X x W y T i buf (fun u c hu hc => key u c (by omega) hc)

theorem outer_loop_length (FS : List (List Nat)) (X x W T n : Nat) (padded : Bool)
    (init : List Nat) :
    (loopUp n (fun y' b => transpose_row FS X x W T y' padded b) init).length
      = init.length :=
  loopUp_inv (fun b : List Nat => b.length = init.length) n _ init
    (fun i a ha => by simp only [transpose_row_length]; exact ha) rfl

theorem outer_getD_main (FS : List (List Nat)) (X x W T Y y n t c : Nat) (padded : Bool)
    (init : List Nat) (hy : y < n) (hn : n ≤ Y) (ht : t < T) (hTW : T ≤ W)
    (hpad : padded = true → W = T + 1) (hinit : init.length = W * Y * 3) (hc : c < 3) :
    (loopUp n (fun y' b => transpose_row FS X x W T y' padded b) init).getD
        ((y * W + t) * 3 + c) 0
      = (FS.getD t []).getD ((y * X + x) * 3 + c) 0 := by
  induction n with
  | zero => omega
  | succ m ih =>
    simp only [loopUp_succ]
    have hlen : (loopUp m (fun y' b => transpose_row FS X x W T y' padded b) init).length
        = W * Y * 3 := by rw [outer_loop_length]; exact hinit
    by_cases hm : y = m
    · subst hm
      exact transpose_row_getD_main FS X x W T Y y t c padded _ (by omega) ht hTW hpad hlen hc
    · have hym : y < m := by omega
      rw [transpose_row_getD_outside FS X x W T m _ padded _ hTW hpad ?side]
      · exact ih (by omega) (by omega)
      case side =>
        have h1 := off_in_row W y t c (by omega) hc
        have h2 := row_lt_row W y m hym
        left
        omega

theorem outer_getD_pad (FS : List (List Nat)) (X x W T Y y n c : Nat)
    (init : List Nat) (hy : y < n) (hn : n ≤ Y) (hT : 1 ≤ T) (hW : W = T + 1)
    (hinit : init.length = W * Y * 3) (hc : c < 3) :
    (loopUp n (fun y' b => transpose_row FS X x W T y' true b) init).getD
        ((y * W + T) * 3 + c) 0
      = (FS.getD (T - 1) []).getD ((y * X + x) * 3 + c) 0 := by
  induction n with
  | zero => omega
  | succ m ih =>
    simp only [loopUp_succ]
    have hlen : (loopUp m (fun y' b => transpose_row FS X x W T y' true b) init).length
        = W * Y * 3 := by rw [outer_loop_length]; exact hinit
    by_cases hm : y = m
    · subst hm
      exact transpose_row_getD_padcol FS X x W T Y y c _ (by omega) hT hW hlen hc
    · have hym : y < m := by omega
      rw [transpose_row_getD_outside FS X x W T m _ true _ (by omega) (fun _ => hW) ?side2]
      · exact ih (by omega) (by omega)
      case side2 =>
        have h1 := off_in_row W y T c (by omega) hc
        have h2 := row_lt_row W y m hym
        left
        omega

/-! ## Facts about `padded_width` -/

theorem padded_width_spec (T : Nat) : padded_width T = if T % 2 = 0 then T else T + 1 := by
  unfold padded_width
  by_cases h : T % 2 = 0 <;> simp [h]

theorem padded_width_ge (T : Nat) : T ≤ padded_width T := by
  rw [padded_width_spec]
  split <;> omega

theorem padded_width_even (T : Nat) (h : T % 2 = 0) : padded_width T = T := by
  simp [padded_width_spec, h]

theorem padded_width_odd (T : Nat) (h : T % 2 = 1) : padded_width T = T + 1 := by
  rw [padded_width_spec]
  split <;> omega

theorem padded_flag_true (T : Nat) (h : T % 2 = 1) : (padded_width T != T) = true := by
  rw [padded_width_odd T h]
  simp

theorem padded_flag_imp (T : Nat) : (padded_width T != T) = true → padded_width T = T + 1 := by
  intro h
  by_cases hp : T % 2 = 0
  · rw [padded_width_even T hp] at h
    simp at h
  · exact padded_width_odd T (by omega)

/-! ## The two main read-off theorems for `transpose_and_build` -/

theorem transpose_and_build_getD_main (FS : List (List Nat)) (X Y T x y t c : Nat)
    (hy : y < Y) (ht : t < T) (hc : c < 3) :
    (transpose_and_build FS X Y T x).getD ((y * padded_width T + t) * 3 + c) 0
      = (FS.getD t []).getD ((y * X + x) * 3 + c) 0 := by
  simp only [transpose_and_build]
  exact outer_getD_main FS X x (padded_width T) T Y y Y t c (padded_width T != T) _
    hy (le_refl Y) ht (padded_width_ge T) (padded_flag_imp T) (by simp) hc

theorem transpose_and_build_getD_padcol (FS : List (List Nat)) (X Y T x y c : Nat)
    (hy : y < Y) (hT : T % 2 = 1) (hc : c < 3) :
    (transpose_and_build FS X Y T x).getD ((y * padded_width T + T) * 3 + c) 0
      = (FS.getD (T - 1) []).getD ((y * X + x) * 3 + c) 0 := by
  simp only [transpose_and_build]
  rw [padded_flag_true T hT]
  exact outer_getD_pad FS X x (padded_width T) T Y y Y c _
    hy (le_refl Y) (by omega) (padded_width_odd T hT) (by simp) hc

/-! ## Checked mirror of the transpose

Rust indexing (`input_frames[t][src_offset]`, `transposed_data[dst_offset] = ...`)
panics when out of bounds.  The `_checked` functions below mirror the transpose
with every read and write guarded, returning `none` exactly when the Rust code
would panic, in the same evaluation order as the source. -/

def set_checked (l : List Nat) (i v : Nat) : Option (List Nat) :=
  if i < l.length then some (l.set i v) else none

def copy_pixel_checked (input_frames : List (List Nat)) (orig_width x new_width y t : Nat)
    (buf : List Nat) : Option (List Nat) := do
  let src_offset := (y * orig_width + x) * 3
  let dst_offset := (y * new_width + t) * 3
  let frame ← input_frames.get? t
  let v0 ← frame.get? src_offset
  let buf1 ← set_checked buf dst_offset v0
  let v1 ← frame.get? (src_offset + 1)
  let buf2 ← set_checked buf1 (dst_offset + 1) v1
  let v2 ← frame.get? (src_offset + 2)
  set_checked buf2 (dst_offset + 2) v2

def pad_row_checked (new_width new_width_raw y : Nat) (buf : List Nat) : Option (List Nat) := do
  let last_src_offset := (y * new_width + new_width_raw - 1) * 3
  let pad_dst_offset := (y * new_width + new_width_raw) * 3
  let v0 ← buf.get? last_src_offset
  let buf1 ← set_checked buf pad_dst_offset v0
  let v1 ← buf1.get? (last_src_offset + 1)
  let buf2 ← set_checked buf1 (pad_dst_offset + 1) v1
  let v2 ← buf2.get? (last_src_offset + 2)
  set_checked buf2 (pad_dst_offset + 2) v2

def transpose_row_checked (input_frames : List (List Nat))
    (orig_width x new_width new_width_raw y : Nat) (padded : Bool) (buf : List Nat) :
    Option (List Nat) := do
  let buf ← loopUpOpt new_width_raw
    (fun t b => copy_pixel_checked input_frames orig_width x new_width y t b) buf
  if padded then pad_row_checked new_width new_width_raw y buf else pure buf

def transpose_and_build_checked (input_frames : List (List Nat))
    (orig_width orig_height num_frames x : Nat) : Option (List Nat) :=
  let new_width_raw := num_frames
  let new_height := orig_height
  let new_width := padded_width new_width_raw
  let padded := new_width != new_width_raw
  loopUpOpt new_height
    (fun y buf =>
      transpose_row_checked input_frames orig_width x new_width new_width_raw y padded buf)
    (List.replicate (new_width * new_height * 3) 0)

theorem set_checked_lt (l : List Nat) (i v : Nat) (h : i < l.length) :
    set_checked l i v = some (l.set i v) := by
  simp [set_checked, h]

theorem copy_pixel_checked_eq (FS : List (List Nat)) (X Y W x y t : Nat) (buf : List Nat)
    (hts : t < FS.length) (hfr : X * Y * 3 ≤ (FS.getD t []).length)
    (hx : x < X) (hy : y < Y) (htW : t < W) (hbuf : buf.length = W * Y * 3) :
    copy_pixel_checked FS X x W y t buf = some (copy_pixel FS X x W y t buf) := by
  have hsrc : ∀ c, c < 3 → (y * X + x) * 3 + c < (FS.getD t []).length := by
    intro c hc
    have := off_lt_len X Y y x c hy hx hc
    omega
  have hdst : ∀ c, c < 3 → (y * W + t) * 3 + c < buf.length := by
    intro c hc
    rw [hbuf]
    exact off_lt_len W Y y t c hy htW hc
  have hsrc0 : (y * X + x) * 3 < (FS.getD t []).length := by
    have := hsrc 0 (by omega)
    omega
  have hdst0 : (y * W + t) * 3 < buf.length := by
    have := hdst 0 (by omega)
    omega
  unfold copy_pixel_checked copy_pixel
  rw [get?_eq_some_getD FS t [] hts]
  simp only [Option.bind_eq_bind, Option.some_bind]
  rw [get?_eq_some_getD _ _ 0 hsrc0]
  simp only [Option.bind_eq_bind, Option.some_bind]
  rw [set_checked_lt _ _ _ hdst0]
  simp only [Option.bind_eq_bind, Option.some_bind]
  rw [get?_eq_some_getD _ _ 0 (hsrc 1 (by omega))]
  simp only [Option.bind_eq_bind, Option.some_bind]
  rw [set_checked_lt _ _ _ (by simpa using hdst 1 (by omega))]
  simp only [Option.bind_eq_bind, Option.some_bind]
  rw [get?_eq_some_getD _ _ 0 (hsrc 2 (by omega))]
  simp only [Option.bind_eq_bind, Option.some_bind]
  rw [set_checked_lt _ _ _ (by simpa using hdst 2 (by omega))]

theorem pad_row_checked_eq (W T Y y : Nat) (buf : List Nat)
    (hT : 1 ≤ T) (hTW : T < W) (hy : y < Y) (hbuf : buf.length = W * Y * 3) :
    pad_row_checked W T y buf = some (pad_row W T y buf) := by
  have hsrc : ∀ c, c < 3 → (y * W + T - 1) * 3 + c < buf.length := by
    intro c hc
    have := off_lt_len W Y y (T - 1) c hy (by omega) hc
    rw [hbuf]
    omega
  have hdst : ∀ c, c < 3 → (y * W + T) * 3 + c < buf.length := by
    intro c hc
    rw [hbuf]
    exact off_lt_len W Y y T c hy hTW hc
  have hsrc0 : (y * W + T - 1) * 3 < buf.length := by
    have := hsrc 0 (by omega)
    omega
  have hdst0 : (y * W + T) * 3 < buf.length := by
    have := hdst 0 (by omega)
    omega
  simp only [pad_row_checked, pad_row]
  rw [get?_eq_some_getD _ _ 0 hsrc0]
  simp only [Option.bind_eq_bind, Option.some_bind]
  rw [set_checked_lt _ _ _ hdst0]
  simp only [Option.bind_eq_bind, Option.some_bind]
  rw [get?_eq_some_getD _ _ 0 (by simpa using hsrc 1 (by omega))]
  simp only [Option.bind_eq_bind, Option.some_bind]
  rw [set_checked_lt _ _ _ (by simpa using hdst 1 (by omega))]
  simp only [Option.bind_eq_bind, Option.some_bind]
  rw [get?_eq_some_getD _ _ 0 (by simpa using hsrc 2 (by omega))]
  simp only [Option.bind_eq_bind, Option.some_bind]
  rw [set_checked_lt _ _ _ (by simpa using hdst 2 (by omega))]

theorem transpose_row_checked_eq (FS : List (List Nat)) (X x W T Y y : Nat) (padded : Bool)
    (buf : List Nat) (hlenFS : T ≤ FS.length) (hfr : ∀ f ∈ FS, X * Y * 3 ≤ f.length)
    (hx : x < X) (hy : y < Y) (hTW : T ≤ W) (hpad : padded = true → W = T + 1)
    (hT1 : padded = true → 1 ≤ T) (hbuf : buf.length = W * Y * 3) :
    transpose_row_checked FS X x W T y padded buf
      = some (transpose_row FS X x W T y padded buf) := by
  have hloop := loopUpOpt_eq_some (fun b : List Nat => b.length = W * Y * 3) T
    (fun t b => copy_pixel FS X x W y t b)
    (fun t b => copy_pixel_checked FS X x W y t b) buf
    (fun i b hi hP =>
      ⟨copy_pixel_checked_eq FS X Y W x y i b (by omega)
        (hfr _ (getD_mem FS i [] (by omega))) hx hy (by omega) hP,
       by simp only [copy_pixel_length]; exact hP⟩)
    hbuf
  unfold transpose_row_checked transpose_row
  rw [hloop.1]
  simp only [Option.bind_eq_bind, Option.some_bind]
  cases padded with
  | false => simp
  | true =>
    simp only [ite_true]
    exact pad_row_checked_eq W T Y y _ (hT1 rfl) (by have := hpad rfl; omega) hy hloop.2

theorem padded_flag_pos (T : Nat) : (padded_width T != T) = true → 1 ≤ T := by
  intro h
  by_cases h0 : T = 0
  · subst h0
    rw [padded_width_even 0 rfl] at h
    simp at h
  · omega

theorem transpose_and_build_checked_eq (FS : List (List Nat)) (X Y T x : Nat)
    (hlenFS : T ≤ FS.length) (hfr : ∀ f ∈ FS, X * Y * 3 ≤ f.length) (hx : x < X) :
    transpose_and_build_checked FS X Y T x = some (transpose_and_build FS X Y T x) := by
  simp only [transpose_and_build_checked, transpose_and_build]
  exact (loopUpOpt_eq_some (fun b : List Nat => b.length = padded_width T * Y * 3) Y
    (fun y b => transpose_row FS X x (padded_width T) T y (padded_width T != T) b)
    (fun y b => transpose_row_checked FS X x (padded_width T) T y (padded_width T != T) b)
    (List.replicate (padded_width T * Y * 3) 0)
    (fun y b hyY hP =>
      ⟨transpose_row_checked_eq FS X x (padded_width T) T Y y (padded_width T != T) b
        hlenFS hfr hx hyY (padded_width_ge T) (padded_flag_imp T) (padded_flag_pos T) hP,
       by simp only [transpose_row_length]; exact hP⟩)
    (by simp)).1

/-! ## Timestamp reconstruction (main.rs lines 258-266 and 356-381)

An output packet as written to the muxer.  The source rescales the encoder's
own timestamps into the stream timebase and then overwrites both the
presentation and the decode timestamp with `current_pts`
(`encoded_packet.set_pts` / `set_dts`, lines 374-375), so nothing of the
encoder-assigned timestamps survives into the written packet; only the number
of packets the encoder emits matters. -/
structure OutPacket where
  pts : Int
  dts : Int
deriving DecidableEq

/-- main.rs lines 356-381, `receive_and_write_packets_with_pts`: the
`while encoder.receive_packet(..).is_ok()` loop, for a call during which the
encoder yields `num_packets` packets.  Each written packet carries
`pts = dts = current_pts`, and `current_pts` advances by `pts_increment`.
Returns the written packets and the final `current_pts`. -/
def receive_and_write_packets_with_pts (num_packets : Nat) (current_pts pts_increment : Int) :
    List OutPacket × Int :=
  match num_packets with
  | 0 => ([], current_pts)
  | n + 1 =>
    let pkt : OutPacket := ⟨current_pts, current_pts⟩
    let rest := receive_and_write_packets_with_pts n (current_pts + pts_increment) pts_increment
    (pkt :: rest.1, rest.2)

/-- The full sequence of packets written during one run of
`transpose_and_save`: `current_pts` starts at 0 (main.rs line 266) and is
threaded through one `receive_and_write_packets_with_pts` call per output
frame (line 324) plus the final flush call (line 339).  `packet_batches`
lists how many packets the external encoder yields at each of those calls. -/
def transpose_and_save_packets (packet_batches : List Nat) (pts_increment : Int) :
    List OutPacket :=
  (packet_batches.foldl
    (fun acc n =>
      let step := receive_and_write_packets_with_pts n acc.2 pts_increment
      (acc.1 ++ step.1, step.2))
    (([] : List OutPacket), (0 : Int))).1

/-- main.rs lines 261-262:
`pts_increment = (actual_stream_time_base.denominator() as i64 * fps.denominator() as i64) / fps.numerator() as i64`.
Rust `i64` division truncates toward zero, which is `Int.tdiv` (the product of
two `i32`-ranged factors cannot overflow `i64`), and panics on a zero divisor;
the panic is modelled as the error case, which aborts the run. -/
def pts_increment_checked (tb_den fps_den fps_num : Int) : Except String Int :=
  if fps_num = 0 then Except.error "division by zero"
  else Except.ok (Int.tdiv (tb_den * fps_den) fps_num)

theorem receive_and_write_fst (n : Nat) (cur inc : Int) :
    (receive_and_write_packets_with_pts n cur inc).1
      = (List.range n).map (fun i => ⟨cur + i * inc, cur + i * inc⟩) := by
  induction n generalizing cur with
  | zero => rfl
  | succ m ih =>
    simp only [receive_and_write_packets_with_pts]
    rw [ih]
    rw [List.range_succ_eq_map]
    simp only [List.map_cons, List.map_map, List.cons.injEq]
    constructor
    · simp
    · refine List.map_congr_left ?_
      intro i hi
      simp only [Function.comp_apply, OutPacket.mk.injEq]
      constructor <;> (push_cast; ring)

theorem receive_and_write_snd (n : Nat) (cur inc : Int) :
    (receive_and_write_packets_with_pts n cur inc).2 = cur + n * inc := by
  induction n generalizing cur with
  | zero => simp [receive_and_write_packets_with_pts]
  | succ m ih =>
    simp only [receive_and_write_packets_with_pts]
    rw [ih]
    push_cast
    ring

theorem transpose_and_save_packets_closed (batches : List Nat) (inc : Int) :
    transpose_and_save_packets batches inc
      = (List.range batches.sum).map (fun (i : Nat) => ⟨(i : Int) * inc, (i : Int) * inc⟩) := by
  suffices h : ∀ (bs : List Nat) (acc : List OutPacket) (cur : Int),
      (bs.foldl
        (fun acc n =>
          let step := receive_and_write_packets_with_pts n acc.2 inc
          (acc.1 ++ step.1, step.2))
        (acc, cur)).1
      = acc ++ (List.range bs.sum).map (fun i => ⟨cur + i * inc, cur + i * inc⟩) by
    have h0 := h batches [] 0
    simp only [List.nil_append, zero_add] at h0
    exact h0
  intro bs
  induction bs with
  | nil => intro acc cur; simp
  | cons n rest ih =>
    intro acc cur
    simp only [List.foldl_cons]
    rw [ih]
    rw [receive_and_write_fst, receive_and_write_snd]
    rw [List.sum_cons, List.range_add]
    simp only [List.map_append, List.map_map, List.append_assoc]
    congr 1
    congr 1
    refine List.map_congr_left ?_
    intro i hi
    simp only [Function.comp_apply, OutPacket.mk.injEq]
    constructor <;> (push_cast; ring)

theorem packets_pts_closed (batches : List Nat) (inc : Int) :
    (transpose_and_save_packets batches inc).map OutPacket.pts
      = (List.range batches.sum).map (fun (i : Nat) => (i : Int) * inc) := by
  rw [transpose_and_save_packets_closed, List.map_map]
  rfl

/-! ## The pipeline driver (main.rs `main`, lines 10-110) -/

/-- A frame as produced by the external decoder: its declared dimensions and
its pixel payload. -/
structure RawFrame where
  width : Nat
  height : Nat
  data : List Nat
deriving DecidableEq

/-- Modelled from the spec: the external scale/convert collaborator
(main.rs line 121, `scaler.run(&decoded, &mut rgb_frame)`) is not part of this
repository.  Per the design document's Scale/convert interface and its Frame
Store contract, the scaling context is configured once for the stream's
declared `width`/`height` (main.rs lines 61-69); running it on a decoded frame
whose dimensions differ from the configured ones fails, and the failure is
propagated by the `?` operator — the `DimensionMismatch` condition.  On
success it yields the frame's payload in RGB24; the colour conversion itself
is dimension-preserving and modelled as the identity on the payload. -/
def scaler_run (cfg_width cfg_height : Nat) (f : RawFrame) : Except String (List Nat) :=
  if f.width = cfg_width ∧ f.height = cfg_height then Except.ok f.data
  else Except.error "DimensionMismatch"

/-- main.rs lines 112-130, `receive_and_process_frames`: drain the decoder,
scale each frame and append its bytes to `frames`.  The decoded frames of the
whole run are given as one list (the function is called per input packet and
once to flush; only the concatenation of its outputs matters, and the
accumulator `frames` threads through calls exactly as in the source). -/
def receive_and_process_frames (cfg_width cfg_height : Nat) :
    List RawFrame → List (List Nat) → Except String (List (List Nat))
  | [], frames => Except.ok frames
  | f :: rest, frames =>
    match scaler_run cfg_width cfg_height f with
    | Except.error e => Except.error e
    | Except.ok data => receive_and_process_frames cfg_width cfg_height rest (frames ++ [data])

/-- main.rs lines 10-110 plus the staging of `transpose_and_save`: decode all
frames (pass 1); fail with "No frames decoded" when the store is empty (lines
92-95); compute `pts_increment` from the post-header stream timebase (lines
261-262); then produce the transposed frames (lines 267-335) and the written
packets.  An error return means the run aborted before producing any
transposed output frame and before writing any packet. -/
def run_pipeline (cfg_width cfg_height : Nat) (decoded : List RawFrame)
    (tb_den fps_den fps_num : Int) (packet_batches : List Nat) :
    Except String (List (List Nat) × List OutPacket) := do
  let frames ← receive_and_process_frames cfg_width cfg_height decoded []
  let num_frames := frames.length
  if num_frames = 0 then
    Except.error "No frames decoded"
  else do
    let pts_increment ← pts_increment_checked tb_den fps_den fps_num
    Except.ok (transpose_output frames cfg_width cfg_height num_frames,
      transpose_and_save_packets packet_batches pts_increment)

theorem receive_frames_error_of_mismatch (cfg_width cfg_height : Nat)
    (decoded : List RawFrame) (acc : List (List Nat))
    (h : ∃ f ∈ decoded, f.width ≠ cfg_width ∨ f.height ≠ cfg_height) :
    receive_and_process_frames cfg_width cfg_height decoded acc
      = Except.error "DimensionMismatch" := by
  induction decoded generalizing acc with
  | nil => simp at h
  | cons g rest ih =>
    simp only [receive_and_process_frames]
    by_cases hg : g.width = cfg_width ∧ g.height = cfg_height
    · simp only [scaler_run, if_pos hg]
      refine ih _ ?_
      rcases h with ⟨f, hf, hfd⟩
      rcases List.mem_cons.mp hf with hfg | hfr
      · subst hfg
        rcases hfd with hw | hh
        · exact absurd hg.1 hw
        · exact absurd hg.2 hh
      · exact ⟨f, hfr, hfd⟩
    · simp [scaler_run, if_neg hg]

theorem receive_frames_ok_of_match (cfg_width cfg_height : Nat)
    (decoded : List RawFrame) (acc : List (List Nat))
    (h : ∀ f ∈ decoded, f.width = cfg_width ∧ f.height = cfg_height) :
    receive_and_process_frames cfg_width cfg_height decoded acc
      = Except.ok (acc ++ decoded.map RawFrame.data) := by
  induction decoded generalizing acc with
  | nil => simp [receive_and_process_frames]
  | cons g rest ih =>
    simp only [receive_and_process_frames, scaler_run, if_pos (h g (by simp))]
    rw [ih _ (fun f hf => h f (by simp [hf]))]
    simp

theorem run_pipeline_ok_shape (cfg_width cfg_height : Nat) (decoded : List RawFrame)
    (tb_den fps_den fps_num : Int) (packet_batches : List Nat) (frames : List (List Nat))
    (hrec : receive_and_process_frames cfg_width cfg_height decoded [] = Except.ok frames) :
    run_pipeline cfg_width cfg_height decoded tb_den fps_den fps_num packet_batches
      = if frames.length = 0 then Except.error "No frames decoded"
        else (pts_increment_checked tb_den fps_den fps_num).bind
          (fun inc => Except.ok (transpose_output frames cfg_width cfg_height frames.length,
            transpose_and_save_packets packet_batches inc)) := by
  unfold run_pipeline
  rw [hrec]
  rfl

/-! ## The claims -/

/-- C1: Pixel correctness of the transpose: for every input of `T` frames of
`X × Y` RGB pixels and all `x < X`, `y < Y`, `t < T`, the pixel at row `y`,
column `t` of output frame `x` equals the pixel at row `y`, column `x` of
input frame `t` — all three bytes `c < 3` of the RGB triple — under the
precondition that each stored input-frame buffer holds rows at stride exactly
`X*3` bytes (so frame buffers have length `X*Y*3` and the pixel at row `y`,
column `x` sits at offset `(y*X + x)*3`). -/
theorem pixel_transpose_correct (input_frames : List (List Nat)) (X Y T x y t c : Nat)
    (hlen : input_frames.length = T)
    (hstride : ∀ f ∈ input_frames, f.length = X * Y * 3)
    (hx : x < X) (hy : y < Y) (ht : t < T) (hc : c < 3) :
    (transpose_and_build input_frames X Y T x).getD ((y * padded_width T + t) * 3 + c) 0
      = (input_frames.getD t []).getD ((y * X + x) * 3 + c) 0 :=
  transpose_and_build_getD_main input_frames X Y T x y t c hy ht hc

theorem pixel_transpose_correct_witness :
    (([[10, 20, 30]] : List (List Nat)).length = 1
      ∧ (∀ f ∈ ([[10, 20, 30]] : List (List Nat)), f.length = 1 * 1 * 3))
    ∧ (transpose_and_build [[10, 20, 30]] 1 1 1 0).getD
          ((0 * padded_width 1 + 0) * 3 + 0) 0
        = (([[10, 20, 30]] : List (List Nat)).getD 0 []).getD ((0 * 1 + 0) * 3 + 0) 0 :=
  ⟨⟨by decide, by decide⟩,
    pixel_transpose_correct [[10, 20, 30]] 1 1 1 0 0 0 0 (by decide) (by decide)
      (by decide) (by decide) (by decide) (by decide)⟩

/-- C2: Output dimensional relationship: for every run with `T ≥ 1` decoded
frames of size `X × Y`, the program emits exactly `X` output frames, each of
height `Y` and width `T` when `T` is even and `T + 1` when `T` is odd (the
output buffer of every emitted frame has length `width * Y * 3`). -/
theorem output_dimensions (input_frames : List (List Nat)) (X Y T : Nat)
    (hT : 1 ≤ T) (hlen : input_frames.length = T) :
    (transpose_output input_frames X Y T).length = X
    ∧ ∀ f ∈ transpose_output input_frames X Y T,
        f.length = (if T % 2 = 0 then T else T + 1) * Y * 3 := by
  constructor
  · simp [transpose_output]
  · intro f hf
    simp only [transpose_output, List.mem_map] at hf
    rcases hf with ⟨x, hx, rfl⟩
    rw [transpose_and_build_length, padded_width_spec]

theorem output_dimensions_witness :
    (1 ≤ 2 ∧ ([[1, 2, 3], [4, 5, 6]] : List (List Nat)).length = 2)
    ∧ ((transpose_output [[1, 2, 3], [4, 5, 6]] 1 1 2).length = 1
      ∧ ∀ f ∈ transpose_output [[1, 2, 3], [4, 5, 6]] 1 1 2,
          f.length = (if 2 % 2 = 0 then 2 else 2 + 1) * 1 * 3) :=
  ⟨⟨by decide, by decide⟩,
    output_dimensions [[1, 2, 3], [4, 5, 6]] 1 1 2 (by decide) (by decide)⟩

/-- C3: Padding correctness: whenever `T` is odd, in every output frame
`x < X` and for every row `y < Y` and byte `c < 3`, the pixel in the added
padding column at index `T` equals the pixel in column `T - 1` of the same
row; and when `T` is even no padding column exists (the output width stays
exactly `T`). -/
theorem padding_duplicates_last_column (input_frames : List (List Nat)) (X Y T x y c : Nat)
    (hT : T % 2 = 1) (hx : x < X) (hy : y < Y) (hc : c < 3) :
    ((transpose_and_build input_frames X Y T x).getD
          ((y * padded_width T + T) * 3 + c) 0
        = (transpose_and_build input_frames X Y T x).getD
          ((y * padded_width T + (T - 1)) * 3 + c) 0)
    ∧ ∀ T', T' % 2 = 0 → padded_width T' = T' := by
  constructor
  · rw [transpose_and_build_getD_padcol input_frames X Y T x y c hy hT hc,
      transpose_and_build_getD_main input_frames X Y T x y (T - 1) c hy (by omega) hc]
  · exact fun T' h => padded_width_even T' h

theorem padding_duplicates_last_column_witness :
    (1 % 2 = 1)
    ∧ (((transpose_and_build [[7, 8, 9]] 1 1 1 0).getD
            ((0 * padded_width 1 + 1) * 3 + 0) 0
          = (transpose_and_build [[7, 8, 9]] 1 1 1 0).getD
            ((0 * padded_width 1 + (1 - 1)) * 3 + 0) 0)
        ∧ ∀ T', T' % 2 = 0 → padded_width T' = T') :=
  ⟨by decide,
    padding_duplicates_last_column [[7, 8, 9]] 1 1 1 0 0 0 (by decide) (by decide)
      (by decide) (by decide)⟩

/-- C4: PTS increment formula: for every desired frame rate `num/den` with
`num ≠ 0` and every post-header stream timebase denominator `tb_den`, the
computed per-frame timestamp increment is the truncating integer division
`(tb_den * den) / num`; in particular for `fps = 30000/1001` and stream
timebase `1/30000` the increment is `1001`, and in any run whose encoder
emits at least three packets the first three written packets carry
PTS `0, 1001, 2002`. -/
theorem pts_increment_formula (tb_den fps_den fps_num : Int) (batches : List Nat)
    (hnum : fps_num ≠ 0) (h3 : 3 ≤ batches.sum) :
    pts_increment_checked tb_den fps_den fps_num
        = Except.ok (Int.tdiv (tb_den * fps_den) fps_num)
    ∧ pts_increment_checked 30000 1001 30000 = Except.ok 1001
    ∧ ((transpose_and_save_packets batches 1001).map OutPacket.pts).take 3
        = [0, 1001, 2002] := by
  refine ⟨by simp [pts_increment_checked, hnum], by rfl, ?_⟩
  rw [packets_pts_closed, ← List.map_take, List.take_range, Nat.min_eq_left h3]
  decide

theorem pts_increment_formula_witness :
    ((30000 : Int) ≠ 0 ∧ 3 ≤ ([1, 1, 1] : List Nat).sum)
    ∧ (pts_increment_checked 30000 1001 30000
          = Except.ok (Int.tdiv (30000 * 1001) 30000)
      ∧ pts_increment_checked 30000 1001 30000 = Except.ok 1001
      ∧ ((transpose_and_save_packets [1, 1, 1] 1001).map OutPacket.pts).take 3
          = [0, 1001, 2002]) :=
  ⟨⟨by decide, by decide⟩,
    pts_increment_formula 30000 1001 30000 [1, 1, 1] (by decide) (by decide)⟩

/-- C5 (amended): Timestamp sequence invariant, for runs whose computed
`pts_increment` is at least 1: the written presentation timestamps start at 0,
each packet's decode timestamp equals its presentation timestamp, and
consecutive packets strictly increase by exactly `pts_increment`.  (As stated
over every run the claim fails: a run whose parameters make
`pts_increment = 0` writes a constant 0 timestamp sequence, see the
counterexample.) -/
theorem pts_sequence_invariant (batches : List Nat) (inc : Int) (hinc : 1 ≤ inc) :
    (∀ p ∈ transpose_and_save_packets batches inc, p.dts = p.pts)
    ∧ (∀ p, (transpose_and_save_packets batches inc).head? = some p → p.pts = 0)
    ∧ List.Chain' (fun a b => a.pts < b.pts ∧ b.pts = a.pts + inc)
        (transpose_and_save_packets batches inc) := by
  rw [transpose_and_save_packets_closed]
  refine ⟨?_, ?_, ?_⟩
  · intro p hp
    simp only [List.mem_map] at hp
    rcases hp with ⟨i, hi, rfl⟩
    rfl
  · intro p hp
    rcases hs : batches.sum with _ | m
    · rw [hs] at hp
      simp at hp
    · rw [hs, List.range_succ_eq_map, List.map_cons, List.head?_cons] at hp
      cases hp
      simp
  · rw [List.chain'_iff_get]
    intro i hi
    simp only [List.length_map, List.length_range] at hi
    simp only [List.get_eq_getElem, List.getElem_map, List.getElem_range]
    constructor
    · push_cast
      nlinarith
    · push_cast
      ring

theorem pts_sequence_invariant_witness :
    (1 ≤ (1001 : Int))
    ∧ ((∀ p ∈ transpose_and_save_packets [1, 1] 1001, p.dts = p.pts)
      ∧ (∀ p, (transpose_and_save_packets [1, 1] 1001).head? = some p → p.pts = 0)
      ∧ List.Chain' (fun a b => a.pts < b.pts ∧ b.pts = a.pts + 1001)
          (transpose_and_save_packets [1, 1] 1001)) :=
  ⟨by decide, pts_sequence_invariant [1, 1] 1001 (by decide)⟩

/-- C5 (counterexample): the claim as stated is false for every run: with the
post-header stream timebase `1/1000` (e.g. Matroska) and a declared frame rate
of `2000/1` fps, the code computes `pts_increment = (1000 * 1) / 2000 = 0`,
and a run in which the encoder emits two packets writes the presentation
timestamps `[0, 0]`, which are not strictly increasing. -/
theorem pts_sequence_claim_cex :
    pts_increment_checked 1000 1 2000 = Except.ok 0
    ∧ (transpose_and_save_packets [1, 1] 0).map OutPacket.pts = [0, 0]
    ∧ ¬ List.Chain' (fun a b => a.pts < b.pts) (transpose_and_save_packets [1, 1] 0) := by
  refine ⟨rfl, by decide, ?_⟩
  intro h
  have hpk : transpose_and_save_packets [1, 1] (0 : Int) = [⟨0, 0⟩, ⟨0, 0⟩] := by decide
  rw [hpk, List.chain'_cons] at h
  exact lt_irrefl _ h.1

/-- C6: DimensionMismatch detection: if decode yields frames of inconsistent
dimensions (a later frame's width or height differs from the first frame's),
the run signals the dimension-mismatch condition and aborts before any
transposed output frame is produced (the pipeline result is the error, so no
transposed frame and no packet is emitted). -/
theorem dimension_mismatch_aborts (cfg_width cfg_height : Nat) (f0 g : RawFrame)
    (rest : List RawFrame) (tb_den fps_den fps_num : Int) (packet_batches : List Nat)
    (hg : g ∈ rest) (hne : g.width ≠ f0.width ∨ g.height ≠ f0.height) :
    run_pipeline cfg_width cfg_height (f0 :: rest) tb_den fps_den fps_num packet_batches
      = Except.error "DimensionMismatch" := by
  have herr : receive_and_process_frames cfg_width cfg_height (f0 :: rest) []
      = Except.error "DimensionMismatch" := by
    apply receive_frames_error_of_mismatch
    by_cases h0 : f0.width = cfg_width ∧ f0.height = cfg_height
    · refine ⟨g, by simp [hg], ?_⟩
      rcases hne with hw | hh
      · left
        rw [← h0.1]
        exact hw
      · right
        rw [← h0.2]
        exact hh
    · refine ⟨f0, by simp, ?_⟩
      exact not_and_or.mp h0
  unfold run_pipeline
  rw [herr]
  rfl

theorem dimension_mismatch_aborts_witness :
    ((⟨120, 50, []⟩ : RawFrame) ∈ [(⟨120, 50, []⟩ : RawFrame)]
      ∧ ((⟨120, 50, []⟩ : RawFrame).width ≠ (⟨100, 50, []⟩ : RawFrame).width
        ∨ (⟨120, 50, []⟩ : RawFrame).height ≠ (⟨100, 50, []⟩ : RawFrame).height))
    ∧ run_pipeline 100 50 [⟨100, 50, []⟩, ⟨120, 50, []⟩] 30000 1 30 []
        = Except.error "DimensionMismatch" :=
  ⟨⟨by decide, Or.inl (by decide)⟩,
    dimension_mismatch_aborts 100 50 ⟨100, 50, []⟩ ⟨120, 50, []⟩ [⟨120, 50, []⟩]
      30000 1 30 [] (by decide) (Or.inl (by decide))⟩

/-- C7: EmptyStore handling: whenever decoding yields zero frames, the run
fails with the "No frames decoded" error, and the error is raised before the
encode/mux stage begins: the pipeline result is the error, so no transposed
frame and no packet exists, whatever the timebase, frame rate and encoder
behaviour would have been. -/
theorem empty_store_aborts (cfg_width cfg_height : Nat) (tb_den fps_den fps_num : Int)
    (packet_batches : List Nat) :
    run_pipeline cfg_width cfg_height [] tb_den fps_den fps_num packet_batches
      = Except.error "No frames decoded" := rfl

/-- C8: ZeroFrameRate handling: if the input's reported frame-rate numerator
is 0, the increment computation `(tb_den * fps_den) / fps_num` divides by
zero (a Rust panic, modelled as the fatal error case) and the run aborts
before any timestamps are assigned: the pipeline result is the division
error, and no packet carrying a timestamp exists. -/
theorem zero_frame_rate_aborts (cfg_width cfg_height : Nat) (decoded : List RawFrame)
    (tb_den fps_den : Int) (packet_batches : List Nat)
    (hdims : ∀ f ∈ decoded, f.width = cfg_width ∧ f.height = cfg_height)
    (hne : decoded ≠ []) :
    run_pipeline cfg_width cfg_height decoded tb_den fps_den 0 packet_batches
      = Except.error "division by zero" := by
  rw [run_pipeline_ok_shape cfg_width cfg_height decoded tb_den fps_den 0 packet_batches
    ([] ++ decoded.map RawFrame.data)
    (receive_frames_ok_of_match cfg_width cfg_height decoded [] hdims)]
  rw [if_neg (by simpa [List.length_eq_zero] using hne)]
  rfl

theorem zero_frame_rate_aborts_witness :
    ((∀ f ∈ [(⟨2, 2, List.replicate 12 0⟩ : RawFrame)], f.width = 2 ∧ f.height = 2)
      ∧ [(⟨2, 2, List.replicate 12 0⟩ : RawFrame)] ≠ [])
    ∧ run_pipeline 2 2 [⟨2, 2, List.replicate 12 0⟩] 1000 1 0 []
        = Except.error "division by zero" :=
  ⟨⟨by decide, by decide⟩,
    zero_frame_rate_aborts 2 2 [⟨2, 2, List.replicate 12 0⟩] 1000 1 []
      (by decide) (by decide)⟩

/-- C9: Non-involution under padding: for every input with an odd frame count
`T`, applying the transpose to the transpose's own output (whose frames have
width `padded_width T` and count `X`) does not reproduce the original input:
the round trip yields `T + 1` frames where the original had `T`, the extra
frame coming from the duplicated padding column. -/
theorem padded_transpose_not_involutive (input_frames : List (List Nat)) (X Y T : Nat)
    (hT : T % 2 = 1) (hlen : input_frames.length = T) :
    (transpose_output (transpose_output input_frames X Y T) (padded_width T) Y X).length
        = T + 1
    ∧ transpose_output (transpose_output input_frames X Y T) (padded_width T) Y X
        ≠ input_frames := by
  have hw : padded_width T = T + 1 := padded_width_odd T hT
  have hlen2 : (transpose_output (transpose_output input_frames X Y T)
      (padded_width T) Y X).length = padded_width T := by
    simp [transpose_output]
  refine ⟨by rw [hlen2, hw], ?_⟩
  intro hEq
  have hc := congrArg List.length hEq
  rw [hlen2, hlen, hw] at hc
  omega

theorem padded_transpose_not_involutive_witness :
    (1 % 2 = 1 ∧ ([[1, 2, 3]] : List (List Nat)).length = 1)
    ∧ ((transpose_output (transpose_output [[1, 2, 3]] 1 1 1) (padded_width 1) 1 1).length
          = 1 + 1
      ∧ transpose_output (transpose_output [[1, 2, 3]] 1 1 1) (padded_width 1) 1 1
          ≠ [[1, 2, 3]]) :=
  ⟨⟨by decide, by decide⟩,
    padded_transpose_not_involutive [[1, 2, 3]] 1 1 1 (by decide) (by decide)⟩

/-- C10: In-bounds safety of the transpose loops: for every frame count
`T ≥ 1`, output index `x < X`, and input-frame buffers each of length at
least `X*Y*3` bytes, every index used by the transpose inner loops — the
reads `input_frames[t][(y*X + x)*3 .. +3]` and the writes into the
`new_width*Y*3`-byte output buffer at `(y*new_width + t)*3` and at the
padding offset when `T` is odd — is within bounds: the `Option`-threaded
mirror of the loops, which fails on exactly the accesses on which the Rust
code would panic, succeeds and returns the transposed frame. -/
theorem transpose_in_bounds (input_frames : List (List Nat)) (X Y T x : Nat)
    (hT : 1 ≤ T) (hlen : input_frames.length = T)
    (hfr : ∀ f ∈ input_frames, X * Y * 3 ≤ f.length) (hx : x < X) :
    transpose_and_build_checked input_frames X Y T x
      = some (transpose_and_build input_frames X Y T x) :=
  transpose_and_build_checked_eq input_frames X Y T x (by omega) hfr hx

theorem transpose_in_bounds_witness :
    (1 ≤ 1 ∧ ([[1, 2, 3]] : List (List Nat)).length = 1
      ∧ (∀ f ∈ ([[1, 2, 3]] : List (List Nat)), 1 * 1 * 3 ≤ f.length) ∧ 0 < 1)
    ∧ transpose_and_build_checked [[1, 2, 3]] 1 1 1 0
        = some (transpose_and_build [[1, 2, 3]] 1 1 1 0) :=
  ⟨⟨by decide, by decide, by decide, by decide⟩,
    transpose_in_bounds [[1, 2, 3]] 1 1 1 0 (by decide) (by decide) (by decide) (by decide)⟩
